import Mathlib

/-!
# Auroracoin: block identity, multi-algorithm proof-of-work dispatch, weight, algorithm names

A shallow embedding of `src/primitives/block.cpp`.

* 256-bit values (`uint256`) are natural numbers below `2 ^ 256`, read the way
  `UintToArith256` reads them; in memory they are 32 bytes, least significant first.
* `int` values (algorithm identifiers, the version field) are integers.
* The enumerators `BLOCK_VERSION_*` and `ALGO_*` are declared in `primitives/block.h`, and the
  hash primitives in `hash.h` and `crypto/*.h`; these headers are not among the sources at hand, so
  the enumerators and the primitives are parameters of the embedding (`AlgoConsts`, `HashPrims`).
-/

namespace Auroracoin

/-! ## Constants and external primitives taken as parameters -/

/-- The enumerators used by `block.cpp`: the version-field mask `BLOCK_VERSION_ALGO`, the five
tag bit patterns, and the six algorithm identifiers. -/
structure AlgoConsts where
  BLOCK_VERSION_ALGO : Int
  BLOCK_VERSION_SCRYPT : Int
  BLOCK_VERSION_SHA256D : Int
  BLOCK_VERSION_GROESTL : Int
  BLOCK_VERSION_SKEIN : Int
  BLOCK_VERSION_QUBIT : Int
  ALGO_UNKNOWN : Int
  ALGO_SHA256D : Int
  ALGO_SCRYPT : Int
  ALGO_GROESTL : Int
  ALGO_SKEIN : Int
  ALGO_QUBIT : Int

/-- The five tag patterns are the case labels of the one `switch` in `GetAlgo`; C++ rejects a
`switch` with two equal case labels, so they are pairwise distinct. -/
def AlgoConsts.TagsDistinct (c : AlgoConsts) : Prop :=
  [c.BLOCK_VERSION_SCRYPT, c.BLOCK_VERSION_SHA256D, c.BLOCK_VERSION_GROESTL,
    c.BLOCK_VERSION_SKEIN, c.BLOCK_VERSION_QUBIT].Nodup

/-- The six algorithm identifiers are the case labels of the one `switch` in `GetPoWAlgoHash`,
so they are pairwise distinct. -/
def AlgoConsts.IdsDistinct (c : AlgoConsts) : Prop :=
  [c.ALGO_SHA256D, c.ALGO_SCRYPT, c.ALGO_GROESTL, c.ALGO_SKEIN, c.ALGO_QUBIT,
    c.ALGO_UNKNOWN].Nodup

instance (c : AlgoConsts) : Decidable c.TagsDistinct := by
  unfold AlgoConsts.TagsDistinct; exact inferInstance

instance (c : AlgoConsts) : Decidable c.IdsDistinct := by
  unfold AlgoConsts.IdsDistinct; exact inferInstance

/-- One admissible choice of the enumerators (a three-bit tag field at bit 9, identifiers `0..4`
and `-1`), used to evaluate the embedding on concrete headers. -/
def sampleConsts : AlgoConsts where
  BLOCK_VERSION_ALGO := 7 * 2 ^ 9
  BLOCK_VERSION_SCRYPT := 0 * 2 ^ 9
  BLOCK_VERSION_SHA256D := 1 * 2 ^ 9
  BLOCK_VERSION_GROESTL := 2 * 2 ^ 9
  BLOCK_VERSION_SKEIN := 3 * 2 ^ 9
  BLOCK_VERSION_QUBIT := 4 * 2 ^ 9
  ALGO_UNKNOWN := -1
  ALGO_SHA256D := 0
  ALGO_SCRYPT := 1
  ALGO_GROESTL := 2
  ALGO_SKEIN := 3
  ALGO_QUBIT := 4

/-- The external hash primitives. Each maps the bytes it reads to a number whose low 256 bits
are its digest. `hash256` is the double hash behind `SerializeHash`; the other four are the
proof-of-work primitives called by `GetPoWAlgoHash`. -/
structure HashPrims where
  hash256 : List Nat → Nat
  scrypt_1024_1_1_256 : List Nat → Nat
  groestl : List Nat → Nat
  skein : List Nat → Nat
  qubit : List Nat → Nat

/-! ## Bytes -/

/-- The `n` low bytes of `v`, least significant first. -/
def leBytes : Nat → Nat → List Nat
  | 0, _ => []
  | n + 1, v => v % 256 :: leBytes n (v / 256)

/-- The number whose little-endian bytes are `bs`. -/
def leValue : List Nat → Nat
  | [] => 0
  | b :: bs => b % 256 + 256 * leValue bs

/-- The bit pattern of a 32-bit `int`, as an unsigned number (two's complement). -/
def toBits32 (x : Int) : Nat := (x % 2 ^ 32).toNat

/-- The `int` whose 32-bit two's complement pattern is `n`. -/
def ofBits32 (n : Nat) : Int := if n % 2 ^ 32 < 2 ^ 31 then (n % 2 ^ 32 : Nat) else (n % 2 ^ 32 : Nat) - 2 ^ 32

/-- The operator `&` on two 32-bit `int`s. -/
def bitand (a b : Int) : Int := ofBits32 (Nat.land (toBits32 a) (toBits32 b))

/-- The largest `uint256`, `~arith_uint256(0)`. -/
def UINT256_MAX : Nat := 2 ^ 256 - 1

/-! ## Block header -/

/-- The six fields of `CBlockHeader`. -/
structure CBlockHeader where
  nVersion : Int
  hashPrevBlock : Nat
  hashMerkleRoot : Nat
  nTime : Nat
  nBits : Nat
  nNonce : Nat
deriving DecidableEq

/-- Modelled from the spec: the header serialization of `primitives/block.h` (not among the
sources), "version, previousBlockHash, merkleRoot, time, bits, nonce".
The 80 bytes of a header: `nVersion` (4), `hashPrevBlock` (32), `hashMerkleRoot` (32),
`nTime` (4), `nBits` (4), `nNonce` (4), each little-endian, a negative `nVersion` in two's
complement. `SerializeHash(*this)` hashes this sequence, and on the little-endian hosts the node
runs on the same 80 bytes lie in memory from `BEGIN(nVersion)` on, where the proof-of-work
primitives read them. -/
def headerBytes (h : CBlockHeader) : List Nat :=
  leBytes 4 (toBits32 h.nVersion) ++ leBytes 32 h.hashPrevBlock ++
    leBytes 32 h.hashMerkleRoot ++ leBytes 4 h.nTime ++ leBytes 4 h.nBits ++ leBytes 4 h.nNonce

/-- `CBlockHeader::GetHash`: `SerializeHash(*this)`. -/
def GetHash (P : HashPrims) (h : CBlockHeader) : Nat :=
  P.hash256 (headerBytes h) % 2 ^ 256

/-- `CBlockHeader::GetAlgo`: the `switch` on `nVersion & BLOCK_VERSION_ALGO`, labels in source
order, `ALGO_UNKNOWN` after the `switch`. -/
def GetAlgo (c : AlgoConsts) (h : CBlockHeader) : Int :=
  let tag := bitand h.nVersion c.BLOCK_VERSION_ALGO
  if tag = c.BLOCK_VERSION_SCRYPT then c.ALGO_SCRYPT
  else if tag = c.BLOCK_VERSION_SHA256D then c.ALGO_SHA256D
  else if tag = c.BLOCK_VERSION_GROESTL then c.ALGO_GROESTL
  else if tag = c.BLOCK_VERSION_SKEIN then c.ALGO_SKEIN
  else if tag = c.BLOCK_VERSION_QUBIT then c.ALGO_QUBIT
  else c.ALGO_UNKNOWN

/-! ### The local `thash` of `GetPoWAlgoHash`

The primitives `scrypt_1024_1_1_256`, `groestl` and `skein` receive a `char*` and write their
32-byte digest there. The storage they can reach is modelled as 64 bytes: `thash` in bytes
`0..31`, and the 32 bytes that lie behind it. Addresses are byte offsets from `&thash`. -/

/-- `BEGIN(thash)`: `(char*)&thash`. -/
def BEGIN_thash : Nat := 0

/-- `END(thash)`: `(char*)&((&thash)[1])`, one `uint256` past `BEGIN(thash)`. -/
def END_thash : Nat := 32

/-- The storage right after `uint256 thash;`: the default constructor zeroes `thash`; the bytes
behind it are never read by `GetPoWAlgoHash`. -/
def initialStorage : List Nat := leBytes 32 0 ++ List.replicate 32 0

/-- Write the 32-byte digest `v` at byte offset `off`. -/
def writeDigest (mem : List Nat) (off : Nat) (v : Nat) : List Nat :=
  mem.take off ++ leBytes 32 v ++ mem.drop (off + 32)

/-- The assignment `thash = v`. -/
def assignThash (mem : List Nat) (v : Nat) : List Nat :=
  leBytes 32 v ++ mem.drop 32

/-- The value of `thash`. -/
def readThash (mem : List Nat) : Nat := leValue (mem.take 32)

/-- `CBlockHeader::GetPoWAlgoHash`. The `switch` on `GetAlgo()` with its six labels in source
order; `ALGO_SHA256D` returns `GetHash()` at once, every other path ends in `return thash`. -/
def GetPoWAlgoHash (P : HashPrims) (c : AlgoConsts) (h : CBlockHeader) : Nat :=
  let mem := initialStorage
  let algo := GetAlgo c h
  if algo = c.ALGO_SHA256D then GetHash P h
  else
    let mem :=
      if algo = c.ALGO_SCRYPT then
        writeDigest mem END_thash (P.scrypt_1024_1_1_256 (headerBytes h))
      else if algo = c.ALGO_GROESTL then
        writeDigest mem BEGIN_thash (P.groestl (headerBytes h))
      else if algo = c.ALGO_SKEIN then
        writeDigest mem BEGIN_thash (P.skein (headerBytes h))
      else if algo = c.ALGO_QUBIT then
        assignThash mem (P.qubit (headerBytes h) % 2 ^ 256)
      else if algo = c.ALGO_UNKNOWN then
        assignThash mem UINT256_MAX
      else mem
    readThash mem

/-- The algorithm tag of a version field: `nVersion & BLOCK_VERSION_ALGO`. -/
def algoTag (c : AlgoConsts) (nVersion : Int) : Int := bitand nVersion c.BLOCK_VERSION_ALGO

/-- The tag of `nVersion` is one of the five recognised bit patterns. -/
def TagRecognised (c : AlgoConsts) (nVersion : Int) : Prop :=
  algoTag c nVersion = c.BLOCK_VERSION_SCRYPT ∨ algoTag c nVersion = c.BLOCK_VERSION_SHA256D ∨
    algoTag c nVersion = c.BLOCK_VERSION_GROESTL ∨ algoTag c nVersion = c.BLOCK_VERSION_SKEIN ∨
    algoTag c nVersion = c.BLOCK_VERSION_QUBIT

instance (c : AlgoConsts) (v : Int) : Decidable (TagRecognised c v) := by
  unfold TagRecognised; exact inferInstance

/-- Sample primitives for evaluating the embedding: five different, easily computed functions of
the bytes read. -/
def samplePrims : HashPrims where
  hash256 := fun bs => leValue bs + 1
  scrypt_1024_1_1_256 := fun bs => leValue bs + 2
  groestl := fun bs => leValue bs + 3
  skein := fun bs => leValue bs + 4
  qubit := fun bs => leValue bs + 5

/-- The header of the end-to-end scenario: version set to the Scrypt tag, all-zero
`hashPrevBlock` and `hashMerkleRoot`, `nTime = 1000`, `nBits = 0x1d00ffff`, `nNonce = 42`. -/
def scryptScenarioHeader (c : AlgoConsts) : CBlockHeader :=
  ⟨c.BLOCK_VERSION_SCRYPT, 0, 0, 1000, 0x1d00ffff, 42⟩

/-- The version bits outside the tag field: `nVersion & ~BLOCK_VERSION_ALGO`, as a bit pattern. -/
def nonTagBits (c : AlgoConsts) (nVersion : Int) : Nat :=
  Nat.land (toBits32 nVersion) (2 ^ 32 - 1 - toBits32 c.BLOCK_VERSION_ALGO)

/-- Two headers that are identical except for the tag bits of the version. -/
def SameExceptTag (c : AlgoConsts) (h1 h2 : CBlockHeader) : Prop :=
  nonTagBits c h1.nVersion = nonTagBits c h2.nVersion ∧
    h1.hashPrevBlock = h2.hashPrevBlock ∧ h1.hashMerkleRoot = h2.hashMerkleRoot ∧
    h1.nTime = h2.nTime ∧ h1.nBits = h2.nBits ∧ h1.nNonce = h2.nNonce

instance (c : AlgoConsts) (h1 h2 : CBlockHeader) : Decidable (SameExceptTag c h1 h2) := by
  unfold SameExceptTag; exact inferInstance

/-! ## Block weight -/

/-- The value of an `int` converted to `size_t` (64 bits). -/
def toSizeT (x : Int) : Nat := (x % 2 ^ 64).toNat

/-- The value of a `size_t` converted to `int64_t`. -/
def toInt64 (n : Nat) : Int :=
  if n % 2 ^ 64 < 2 ^ 63 then (n % 2 ^ 64 : Nat) else (n % 2 ^ 64 : Nat) - 2 ^ 64

/-- `GetBlockWeight`. `GetSerializeSize block true` stands for
`::GetSerializeSize(block, PROTOCOL_VERSION | SERIALIZE_TRANSACTION_NO_WITNESS)` and
`GetSerializeSize block false` for `::GetSerializeSize(block, PROTOCOL_VERSION)`; both are
`size_t`. The serializer and the constant `WITNESS_SCALE_FACTOR` (an `int` of
`consensus/consensus.h`) are parameters. The product and the sum are computed in `size_t`, the
result is returned as `int64_t`. -/
def GetBlockWeight {CBlock : Type} (GetSerializeSize : CBlock → Bool → Nat)
    (WITNESS_SCALE_FACTOR : Int) (block : CBlock) : Int :=
  toInt64 ((GetSerializeSize block true % 2 ^ 64 * toSizeT (WITNESS_SCALE_FACTOR - 1)
    + GetSerializeSize block false % 2 ^ 64) % 2 ^ 64)

/-- A block for evaluating `GetBlockWeight`: the header and an ordered list of transactions, each
given by the byte count of its witness-free serialization and the byte count of its witness
data. -/
structure SampleBlock where
  vtx : List (Nat × Nat)

/-- A size function for `SampleBlock`: 80 header bytes, one byte for the transaction count, the
witness-free bytes of each transaction, and, when witness data is included, the witness bytes
with two bytes of marker and flag for each transaction that carries any. -/
def sampleSerializeSize (b : SampleBlock) (noWitness : Bool) : Nat :=
  81 + (b.vtx.map (fun tx =>
    tx.1 + (if noWitness = true ∨ tx.2 = 0 then 0 else tx.2 + 2))).sum

/-! ## Algorithm names -/

/-- `GetAlgoName`: the `switch` over the five identifiers, `"unknown"` after it. -/
def GetAlgoName (c : AlgoConsts) (Algo : Int) : String :=
  if Algo = c.ALGO_SHA256D then "sha256d"
  else if Algo = c.ALGO_SCRYPT then "scrypt"
  else if Algo = c.ALGO_GROESTL then "groestl"
  else if Algo = c.ALGO_SKEIN then "skein"
  else if Algo = c.ALGO_QUBIT then "qubit"
  else "unknown"

/-- The C function `tolower` in the "C" locale: the letters `A..Z` go to `a..z`, every other
character is unchanged. -/
def tolower (ch : Char) : Char :=
  if 'A' ≤ ch ∧ ch ≤ 'Z' then Char.ofNat (ch.toNat + 32) else ch

/-- `transform(strAlgo.begin(), strAlgo.end(), strAlgo.begin(), ::tolower)`. -/
def transformToLower (strAlgo : String) : String := ⟨strAlgo.data.map tolower⟩

/-- `GetAlgoByName`. -/
def GetAlgoByName (c : AlgoConsts) (strAlgo : String) (fallback : Int) : Int :=
  let strAlgo := transformToLower strAlgo
  if strAlgo = "sha" ∨ strAlgo = "sha256" ∨ strAlgo = "sha256d" then c.ALGO_SHA256D
  else if strAlgo = "scrypt" then c.ALGO_SCRYPT
  else if strAlgo = "groestl" ∨ strAlgo = "groestlsha2" then c.ALGO_GROESTL
  else if strAlgo = "skein" ∨ strAlgo = "skeinsha2" then c.ALGO_SKEIN
  else if strAlgo = "q2c" ∨ strAlgo = "qubit" then c.ALGO_QUBIT
  else fallback

/-- The ten names the specification lists as accepted. -/
def acceptedAliases : List String :=
  ["sha", "sha256", "sha256d", "scrypt", "groestl", "groestlsha2", "skein", "skeinsha2",
    "q2c", "qubit"]

/-! ## The double hash behind `SerializeHash`

`SerializeHash` is declared in `hash.h`; it feeds the serialized object to `CHash256`, SHA-256
applied twice. The functions below compute it, so that `GetHash` can be evaluated on concrete
headers with the hash the node uses. -/

/-- The 64 round constants of SHA-256. -/
def sha256K : List Nat := [
  1116352408, 1899447441, 3049323471, 3921009573, 961987163, 1508970993,
  2453635748, 2870763221, 3624381080, 310598401, 607225278, 1426881987,
  1925078388, 2162078206, 2614888103, 3248222580, 3835390401, 4022224774,
  264347078, 604807628, 770255983, 1249150122, 1555081692, 1996064986,
  2554220882, 2821834349, 2952996808, 3210313671, 3336571891, 3584528711,
  113926993, 338241895, 666307205, 773529912, 1294757372, 1396182291,
  1695183700, 1986661051, 2177026350, 2456956037, 2730485921, 2820302411,
  3259730800, 3345764771, 3516065817, 3600352804, 4094571909, 275423344,
  430227734, 506948616, 659060556, 883997877, 958139571, 1322822218,
  1537002063, 1747873779, 1955562222, 2024104815, 2227730452, 2361852424,
  2428436474, 2756734187, 3204031479, 3329325298]

/-- The initial state of SHA-256. -/
def sha256Init : List Nat := [
  1779033703, 3144134277, 1013904242, 2773480762,
  1359893119, 2600822924, 528734635, 1541459225]

/-- Rotate a 32-bit word right by `n` bits. -/
def rotr32 (x n : Nat) : Nat := (x >>> n ||| x <<< (32 - n)) % 2 ^ 32

/-- Addition of 32-bit words. -/
def add32 (a b : Nat) : Nat := (a + b) % 2 ^ 32

/-- Big-endian 32-bit words of a byte sequence. -/
def beWords : List Nat → List Nat
  | a :: b :: c :: d :: rest => (((a * 256 + b) * 256 + c) * 256 + d) :: beWords rest
  | _ => []

/-- The `n` low bytes of `v`, most significant first. -/
def beBytes : Nat → Nat → List Nat
  | 0, _ => []
  | n + 1, v => beBytes n (v / 256) ++ [v % 256]

/-- Extend the message schedule by `n` words; `rev` holds the words so far, latest first. -/
def sha256Schedule : Nat → List Nat → List Nat
  | 0, rev => rev
  | n + 1, rev =>
    match rev with
    | _ :: w2 :: _ :: _ :: _ :: _ :: w7 :: _ :: _ :: _ :: _ :: _ :: _ :: _ :: w15 :: w16 :: _ =>
      let s0 := rotr32 w15 7 ^^^ rotr32 w15 18 ^^^ (w15 >>> 3)
      let s1 := rotr32 w2 17 ^^^ rotr32 w2 19 ^^^ (w2 >>> 10)
      sha256Schedule n (add32 (add32 s1 w7) (add32 s0 w16) :: rev)
    | _ => rev

/-- One round of the SHA-256 compression function, with round constant `kw.1` and schedule
word `kw.2`. -/
def sha256Round (st : List Nat) (kw : Nat × Nat) : List Nat :=
  match st with
  | [a, b, c, d, e, f, g, h] =>
    let ch := (e &&& f) ^^^ ((2 ^ 32 - 1 - e) &&& g)
    let maj := (a &&& b) ^^^ (a &&& c) ^^^ (b &&& c)
    let S1 := rotr32 e 6 ^^^ rotr32 e 11 ^^^ rotr32 e 25
    let S0 := rotr32 a 2 ^^^ rotr32 a 13 ^^^ rotr32 a 22
    let t1 := add32 (add32 (add32 h S1) (add32 ch kw.1)) kw.2
    let t2 := add32 S0 maj
    [add32 t1 t2, a, b, c, add32 d t1, e, f, g]
  | _ => st

/-- The SHA-256 compression of one 64-byte block into the state. -/
def sha256Compress (st : List Nat) (block : List Nat) : List Nat :=
  let w := (sha256Schedule 48 (beWords block).reverse).reverse
  List.zipWith add32 st ((sha256K.zip w).foldl sha256Round st)

/-- Cut a byte sequence into 64-byte blocks (at most `n` of them). -/
def blocks64 : Nat → List Nat → List (List Nat)
  | 0, _ => []
  | n + 1, bs => if bs = [] then [] else bs.take 64 :: blocks64 n (bs.drop 64)

/-- SHA-256 padding: the byte `0x80`, zero bytes up to 56 modulo 64, the bit length in 8 bytes. -/
def sha256Pad (msg : List Nat) : List Nat :=
  msg ++ [128] ++ List.replicate ((119 - msg.length % 64) % 64) 0 ++ beBytes 8 (8 * msg.length)

/-- SHA-256 of a byte sequence, as 32 bytes. -/
def sha256 (msg : List Nat) : List Nat :=
  (((blocks64 (sha256Pad msg).length (sha256Pad msg)).foldl sha256Compress sha256Init).map
    (beBytes 4)).flatten

/-- Modelled from the spec: the double hash of `hash.h` (`CHash256`, not among the sources), "a
double application of a 256-bit secure hash over the serialized bytes": SHA-256 of the SHA-256
of the bytes, the 32 digest bytes read as a `uint256`. -/
def sha256d (bs : List Nat) : Nat := leValue (sha256 (sha256 bs))

/-- The primitives with the double SHA-256 as `hash256`; the four proof-of-work primitives are
those of `samplePrims`. -/
def sha256dPrims : HashPrims where
  hash256 := sha256d
  scrypt_1024_1_1_256 := samplePrims.scrypt_1024_1_1_256
  groestl := samplePrims.groestl
  skein := samplePrims.skein
  qubit := samplePrims.qubit

/-! ## Lemmas on bytes and on the storage of `thash` -/

theorem leBytes_length (n v : Nat) : (leBytes n v).length = n := by
  induction n generalizing v with
  | zero => rfl
  | succ n ih => simp [leBytes, ih]

theorem leValue_leBytes (n v : Nat) : leValue (leBytes n v) = v % 256 ^ n := by
  induction n generalizing v with
  | zero => simp [leBytes, leValue, Nat.mod_one]
  | succ n ih =>
    simp only [leBytes, leValue, ih, Nat.mod_mod]
    rw [pow_succ, Nat.mul_comm (256 ^ n) 256, Nat.mod_mul]

theorem pow_256_32 : (256 : Nat) ^ 32 = 2 ^ 256 := by norm_num

theorem readThash_assignThash (mem : List Nat) (v : Nat) :
    readThash (assignThash mem v) = v % 2 ^ 256 := by
  unfold readThash assignThash
  rw [List.take_append_of_le_length (by simp [leBytes_length]),
    List.take_of_length_le (by simp [leBytes_length]), leValue_leBytes, pow_256_32]

theorem readThash_writeDigest_BEGIN (mem : List Nat) (v : Nat) :
    readThash (writeDigest mem BEGIN_thash v) = v % 2 ^ 256 := by
  unfold readThash writeDigest BEGIN_thash
  simp only [List.take_zero, List.nil_append]
  rw [List.take_append_of_le_length (by simp [leBytes_length]),
    List.take_of_length_le (by simp [leBytes_length]), leValue_leBytes, pow_256_32]

theorem readThash_writeDigest_END (v : Nat) :
    readThash (writeDigest initialStorage END_thash v) = 0 := by
  have h32 : (List.take END_thash initialStorage).length = 32 := by
    simp [initialStorage, END_thash, leBytes_length]
  unfold readThash writeDigest
  rw [List.append_assoc, List.take_append_of_le_length (by omega),
    List.take_of_length_le (by omega)]
  simp only [initialStorage, END_thash]
  rw [List.take_append_of_le_length (by simp [leBytes_length]),
    List.take_of_length_le (by simp [leBytes_length]), leValue_leBytes]
  simp

theorem GetAlgo_of_unrecognised (c : AlgoConsts) (h : CBlockHeader)
    (hu : ¬ TagRecognised c h.nVersion) : GetAlgo c h = c.ALGO_UNKNOWN := by
  simp only [TagRecognised, algoTag, not_or] at hu
  obtain ⟨h1, h2, h3, h4, h5⟩ := hu
  simp [GetAlgo, h1, h2, h3, h4, h5]

theorem AlgoConsts.IdsDistinct.ne_all {c : AlgoConsts} (hids : c.IdsDistinct) :
    (c.ALGO_SHA256D ≠ c.ALGO_SCRYPT ∧ c.ALGO_SHA256D ≠ c.ALGO_GROESTL ∧
      c.ALGO_SHA256D ≠ c.ALGO_SKEIN ∧ c.ALGO_SHA256D ≠ c.ALGO_QUBIT ∧
      c.ALGO_SHA256D ≠ c.ALGO_UNKNOWN) ∧
    (c.ALGO_SCRYPT ≠ c.ALGO_GROESTL ∧ c.ALGO_SCRYPT ≠ c.ALGO_SKEIN ∧
      c.ALGO_SCRYPT ≠ c.ALGO_QUBIT ∧ c.ALGO_SCRYPT ≠ c.ALGO_UNKNOWN) ∧
    (c.ALGO_GROESTL ≠ c.ALGO_SKEIN ∧ c.ALGO_GROESTL ≠ c.ALGO_QUBIT ∧
      c.ALGO_GROESTL ≠ c.ALGO_UNKNOWN) ∧
    (c.ALGO_SKEIN ≠ c.ALGO_QUBIT ∧ c.ALGO_SKEIN ≠ c.ALGO_UNKNOWN) ∧
    c.ALGO_QUBIT ≠ c.ALGO_UNKNOWN := by
  simpa only [AlgoConsts.IdsDistinct, List.nodup_cons, List.mem_cons, List.mem_singleton,
    not_or, List.not_mem_nil, not_false_eq_true, List.nodup_nil, and_true, ne_eq] using hids

/-- On the Scrypt path the digest is written at `END(thash)`, behind `thash`; the `thash` that
is returned still holds the zero of its default construction. -/
theorem GetPoWAlgoHash_of_scrypt (P : HashPrims) (c : AlgoConsts) (h : CBlockHeader)
    (hids : c.IdsDistinct) (hA : GetAlgo c h = c.ALGO_SCRYPT) : GetPoWAlgoHash P c h = 0 := by
  obtain ⟨⟨h1, -⟩, -⟩ := hids.ne_all
  simp only [GetPoWAlgoHash, hA, if_neg (Ne.symm h1), if_true, readThash_writeDigest_END]

theorem headerBytes_length (h : CBlockHeader) : (headerBytes h).length = 80 := by
  simp [headerBytes, leBytes_length]

theorem toBits32_lt (x : Int) : toBits32 x < 2 ^ 32 := by
  unfold toBits32
  have h1 : (0 : Int) ≤ x % 2 ^ 32 := Int.emod_nonneg _ (by norm_num)
  have h2 : x % 2 ^ 32 < 2 ^ 32 := Int.emod_lt_of_pos _ (by norm_num)
  omega

theorem leBytes_inj (n a b : Nat) (ha : a < 256 ^ n) (hb : b < 256 ^ n)
    (hab : leBytes n a = leBytes n b) : a = b := by
  have h := congrArg leValue hab
  rwa [leValue_leBytes, leValue_leBytes, Nat.mod_eq_of_lt ha, Nat.mod_eq_of_lt hb] at h

/-- The first four bytes of the header bytes determine the bit pattern of the version. -/
theorem toBits32_eq_of_headerBytes_eq (h1 h2 : CBlockHeader)
    (hb : headerBytes h1 = headerBytes h2) : toBits32 h1.nVersion = toBits32 h2.nVersion := by
  unfold headerBytes at hb
  simp only [List.append_assoc] at hb
  have h4 := (List.append_inj hb (by simp [leBytes_length])).1
  exact leBytes_inj 4 _ _ (by have := toBits32_lt h1.nVersion; norm_num; omega)
    (by have := toBits32_lt h2.nVersion; norm_num; omega) h4

/-- The last four bytes of the header bytes determine a 32-bit nonce. -/
theorem nNonce_eq_of_headerBytes_eq (h1 h2 : CBlockHeader) (hn1 : h1.nNonce < 2 ^ 32)
    (hn2 : h2.nNonce < 2 ^ 32) (hb : headerBytes h1 = headerBytes h2) :
    h1.nNonce = h2.nNonce := by
  unfold headerBytes at hb
  have h4 := (List.append_inj' hb (by simp [leBytes_length])).2
  exact leBytes_inj 4 _ _ (by norm_num; omega) (by norm_num; omega) h4

/-- A header whose tag is not recognised takes the `ALGO_UNKNOWN` case, which assigns the
maximal value to `thash`. -/
theorem GetPoWAlgoHash_of_unrecognised (P : HashPrims) (c : AlgoConsts) (h : CBlockHeader)
    (hids : c.IdsDistinct) (hu : ¬ TagRecognised c h.nVersion) :
    GetPoWAlgoHash P c h = UINT256_MAX := by
  have hA := GetAlgo_of_unrecognised c h hu
  obtain ⟨⟨-, -, -, -, h1⟩, ⟨-, -, -, h2⟩, ⟨-, -, h3⟩, ⟨-, h4⟩, h5⟩ := hids.ne_all
  simp only [GetPoWAlgoHash, hA, if_neg (Ne.symm h1), if_neg (Ne.symm h2), if_neg (Ne.symm h3),
    if_neg (Ne.symm h4), if_neg (Ne.symm h5), if_true, readThash_assignThash, UINT256_MAX]
  exact Nat.mod_eq_of_lt (by norm_num)

/-- `GetAlgo` returns one of the six identifiers. -/
theorem GetAlgo_mem_ids (c : AlgoConsts) (h : CBlockHeader) :
    GetAlgo c h ∈ [c.ALGO_UNKNOWN, c.ALGO_SHA256D, c.ALGO_SCRYPT, c.ALGO_GROESTL, c.ALGO_SKEIN,
      c.ALGO_QUBIT] := by
  unfold GetAlgo
  simp only [List.mem_cons, List.mem_singleton, List.not_mem_nil, or_false]
  split_ifs <;> simp

/-- The names `GetAlgoName` gives to the five recognised identifiers. -/
theorem GetAlgoName_of_ids (c : AlgoConsts) (hids : c.IdsDistinct) :
    GetAlgoName c c.ALGO_SHA256D = "sha256d" ∧ GetAlgoName c c.ALGO_SCRYPT = "scrypt" ∧
      GetAlgoName c c.ALGO_GROESTL = "groestl" ∧ GetAlgoName c c.ALGO_SKEIN = "skein" ∧
      GetAlgoName c c.ALGO_QUBIT = "qubit" := by
  obtain ⟨⟨h12, h13, h14, h15, -⟩, ⟨h23, h24, h25, -⟩, ⟨h34, h35, -⟩, ⟨h45, -⟩, -⟩ :=
    hids.ne_all
  refine ⟨?_, ?_, ?_, ?_, ?_⟩
  · simp [GetAlgoName]
  · simp [GetAlgoName, Ne.symm h12]
  · simp [GetAlgoName, Ne.symm h13, Ne.symm h23]
  · simp [GetAlgoName, Ne.symm h14, Ne.symm h24, Ne.symm h34]
  · simp [GetAlgoName, Ne.symm h15, Ne.symm h25, Ne.symm h35, Ne.symm h45]

/-- `GetAlgoName` of an identifier outside the five recognised ones. -/
theorem GetAlgoName_of_other (c : AlgoConsts) (a : Int)
    (ha : a ∉ [c.ALGO_SHA256D, c.ALGO_SCRYPT, c.ALGO_GROESTL, c.ALGO_SKEIN, c.ALGO_QUBIT]) :
    GetAlgoName c a = "unknown" := by
  simp only [List.mem_cons, List.mem_singleton, List.not_mem_nil, or_false, not_or] at ha
  obtain ⟨a1, a2, a3, a4, a5⟩ := ha
  simp [GetAlgoName, a1, a2, a3, a4, a5]

/-- The weight when the 64-bit arithmetic does not wrap. -/
theorem GetBlockWeight_val {CBlock : Type} (GetSerializeSize : CBlock → Bool → Nat)
    (block : CBlock) (hle : GetSerializeSize block true ≤ GetSerializeSize block false)
    (hfit : GetSerializeSize block false < 2 ^ 61) :
    GetBlockWeight GetSerializeSize 4 block =
      (GetSerializeSize block true : Int) * 3 + (GetSerializeSize block false : Int) := by
  have h3 : toSizeT (4 - 1) = 3 := by decide
  have hs : GetSerializeSize block true % 2 ^ 64 = GetSerializeSize block true :=
    Nat.mod_eq_of_lt (by omega)
  have ht : GetSerializeSize block false % 2 ^ 64 = GetSerializeSize block false :=
    Nat.mod_eq_of_lt (by omega)
  have hsum : (GetSerializeSize block true * 3 + GetSerializeSize block false) % 2 ^ 64 =
      GetSerializeSize block true * 3 + GetSerializeSize block false :=
    Nat.mod_eq_of_lt (by omega)
  have hlt : GetSerializeSize block true * 3 + GetSerializeSize block false < 2 ^ 63 := by
    omega
  simp only [GetBlockWeight, h3, hs, ht, hsum, toInt64, if_pos hlt]
  push_cast
  rfl

/-- The embedding of SHA-256 on the test vector "abc" of FIPS 180-4. -/
theorem sha256_abc :
    sha256 [97, 98, 99] =
      [186, 120, 22, 191, 143, 1, 207, 234, 65, 65, 64, 222, 93, 174, 34, 35,
        176, 3, 97, 163, 150, 23, 122, 156, 180, 16, 255, 97, 242, 0, 21, 173] := by
  set_option maxRecDepth 100000 in decide

/-- The embedding of `GetHash` with the double SHA-256 reproduces the identity hash of the
Bitcoin genesis block header, `000000000019d6689c085ae165831e934ff763ae46a2a6c172b3f1b60a8ce26f`. -/
theorem GetHash_bitcoin_genesis :
    GetHash sha256dPrims
        ⟨1, 0, 33637443511616323281564667033488455043036536822741741196822500957464973648699,
          1231006505, 0x1d00ffff, 2083236893⟩ =
      10628944869218562084050143519444549580389464591454674019345556079 := by
  set_option maxRecDepth 100000 in decide

/-! ## Theorems -/

/-- C1: for every header whose algorithm tag is none of the five recognised bit patterns,
`GetPoWAlgoHash` returns the maximal 256-bit value `2 ^ 256 - 1`, whatever the other fields and
the non-tag bits of the version are. -/
theorem GetPoWAlgoHash_unknown_is_max (P : HashPrims) (c : AlgoConsts) (h : CBlockHeader)
    (hids : c.IdsDistinct) (hu : ¬ TagRecognised c h.nVersion) :
    GetPoWAlgoHash P c h = 2 ^ 256 - 1 := by
  have hA := GetAlgo_of_unrecognised c h hu
  simp only [AlgoConsts.IdsDistinct, List.nodup_cons, List.mem_cons, List.mem_singleton,
    not_or, List.not_mem_nil, not_false_eq_true, List.nodup_nil, and_true] at hids
  obtain ⟨⟨-, -, -, -, h1⟩, ⟨-, -, -, h2⟩, ⟨-, -, h3⟩, ⟨-, h4⟩, h5⟩ := hids
  simp only [GetPoWAlgoHash, hA, if_neg (Ne.symm h1), if_neg (Ne.symm h2), if_neg (Ne.symm h3),
    if_neg (Ne.symm h4), if_neg (Ne.symm h5), if_true, readThash_assignThash, UINT256_MAX]
  exact Nat.mod_eq_of_lt (by norm_num)

theorem GetPoWAlgoHash_unknown_is_max_witness :
    GetPoWAlgoHash samplePrims sampleConsts ⟨-1, 7, 9, 1000, 0x1d00ffff, 42⟩ = 2 ^ 256 - 1 :=
  GetPoWAlgoHash_unknown_is_max samplePrims sampleConsts ⟨-1, 7, 9, 1000, 0x1d00ffff, 42⟩
    (by decide) (by decide)

/-- C2: for every header whose algorithm tag decodes to SHA256D, `GetPoWAlgoHash` equals
`GetHash` exactly, as full 256-bit values. -/
theorem GetPoWAlgoHash_sha256d_eq_GetHash (P : HashPrims) (c : AlgoConsts) (h : CBlockHeader)
    (hA : GetAlgo c h = c.ALGO_SHA256D) : GetPoWAlgoHash P c h = GetHash P h := by
  simp [GetPoWAlgoHash, hA]

theorem GetPoWAlgoHash_sha256d_eq_GetHash_witness :
    GetAlgo sampleConsts ⟨512 + 2, 7, 9, 1000, 0x1d00ffff, 42⟩ = sampleConsts.ALGO_SHA256D ∧
      GetPoWAlgoHash samplePrims sampleConsts ⟨512 + 2, 7, 9, 1000, 0x1d00ffff, 42⟩ =
        GetHash samplePrims ⟨512 + 2, 7, 9, 1000, 0x1d00ffff, 42⟩ :=
  ⟨by decide, GetPoWAlgoHash_sha256d_eq_GetHash samplePrims sampleConsts
    ⟨512 + 2, 7, 9, 1000, 0x1d00ffff, 42⟩ (by decide)⟩

/-- C3: `GetAlgo` is a total function of the masked version only: the Scrypt, SHA256D, Groestl,
Skein and Qubit bit patterns give `ALGO_SCRYPT`, `ALGO_SHA256D`, `ALGO_GROESTL`, `ALGO_SKEIN` and
`ALGO_QUBIT`, every other masked value gives `ALGO_UNKNOWN`, and two headers whose versions agree
on the masked bits get the same identifier whatever their other bits and fields. -/
theorem GetAlgo_decision_table (c : AlgoConsts) (htags : c.TagsDistinct) :
    (∀ h : CBlockHeader, algoTag c h.nVersion = c.BLOCK_VERSION_SCRYPT →
        GetAlgo c h = c.ALGO_SCRYPT) ∧
    (∀ h : CBlockHeader, algoTag c h.nVersion = c.BLOCK_VERSION_SHA256D →
        GetAlgo c h = c.ALGO_SHA256D) ∧
    (∀ h : CBlockHeader, algoTag c h.nVersion = c.BLOCK_VERSION_GROESTL →
        GetAlgo c h = c.ALGO_GROESTL) ∧
    (∀ h : CBlockHeader, algoTag c h.nVersion = c.BLOCK_VERSION_SKEIN →
        GetAlgo c h = c.ALGO_SKEIN) ∧
    (∀ h : CBlockHeader, algoTag c h.nVersion = c.BLOCK_VERSION_QUBIT →
        GetAlgo c h = c.ALGO_QUBIT) ∧
    (∀ h : CBlockHeader, ¬ TagRecognised c h.nVersion → GetAlgo c h = c.ALGO_UNKNOWN) ∧
    (∀ h1 h2 : CBlockHeader, algoTag c h1.nVersion = algoTag c h2.nVersion →
        GetAlgo c h1 = GetAlgo c h2) := by
  simp only [AlgoConsts.TagsDistinct, List.nodup_cons, List.mem_cons, List.mem_singleton,
    not_or, List.not_mem_nil, not_false_eq_true, List.nodup_nil, and_true] at htags
  obtain ⟨⟨h12, h13, h14, h15⟩, ⟨h23, h24, h25⟩, ⟨h34, h35⟩, h45⟩ := htags
  refine ⟨?_, ?_, ?_, ?_, ?_, ?_, ?_⟩
  · intro h ht; simp only [algoTag] at ht; simp [GetAlgo, ht]
  · intro h ht; simp only [algoTag] at ht; simp [GetAlgo, ht, Ne.symm h12]
  · intro h ht; simp only [algoTag] at ht; simp [GetAlgo, ht, Ne.symm h13, Ne.symm h23]
  · intro h ht; simp only [algoTag] at ht
    simp [GetAlgo, ht, Ne.symm h14, Ne.symm h24, Ne.symm h34]
  · intro h ht; simp only [algoTag] at ht
    simp [GetAlgo, ht, Ne.symm h15, Ne.symm h25, Ne.symm h35, Ne.symm h45]
  · intro h hu; exact GetAlgo_of_unrecognised c h hu
  · intro h1 h2 ht; simp only [algoTag] at ht; simp only [GetAlgo, ht]

theorem GetAlgo_decision_table_witness :
    sampleConsts.TagsDistinct ∧
      GetAlgo sampleConsts ⟨1024 + 2, 7, 9, 1000, 0x1d00ffff, 42⟩ = sampleConsts.ALGO_GROESTL ∧
      GetAlgo sampleConsts ⟨5 * 512 + 2, 7, 9, 1000, 0x1d00ffff, 42⟩ =
        sampleConsts.ALGO_UNKNOWN :=
  ⟨by decide,
    (GetAlgo_decision_table sampleConsts (by decide)).2.2.1
      ⟨1024 + 2, 7, 9, 1000, 0x1d00ffff, 42⟩ (by decide),
    (GetAlgo_decision_table sampleConsts (by decide)).2.2.2.2.2.1
      ⟨5 * 512 + 2, 7, 9, 1000, 0x1d00ffff, 42⟩ (by decide)⟩

/-- C4: at the scenario header (Scrypt tag, all-zero `hashPrevBlock` and `hashMerkleRoot`,
`nTime = 1000`, `nBits = 0x1d00ffff`, `nNonce = 42`) the code returns zero whatever the Scrypt
primitive computes, because the digest is written at `END(thash)` instead of `BEGIN(thash)`; with
a primitive whose digest of these 80 bytes is not zero the value returned is not that digest. -/
theorem GetPoWAlgoHash_scrypt_scenario_is_zero :
    (∀ P : HashPrims, GetPoWAlgoHash P sampleConsts (scryptScenarioHeader sampleConsts) = 0) ∧
      GetPoWAlgoHash samplePrims sampleConsts (scryptScenarioHeader sampleConsts) ≠
        samplePrims.scrypt_1024_1_1_256 (headerBytes (scryptScenarioHeader sampleConsts))
          % 2 ^ 256 := by
  have hz : ∀ P : HashPrims,
      GetPoWAlgoHash P sampleConsts (scryptScenarioHeader sampleConsts) = 0 :=
    fun P => GetPoWAlgoHash_of_scrypt P sampleConsts _ (by decide) (by decide)
  refine ⟨hz, ?_⟩
  rw [hz]
  set_option maxRecDepth 8192 in decide

/-- C5: for every header whose tag decodes to Groestl, Skein or Qubit, `GetPoWAlgoHash` returns
the 256-bit output of `groestl`, `skein` or `qubit` respectively, applied to the 80 header bytes
that `GetHash` hashes. The equations hold for every choice of the other primitives, so no other
primitive contributes to the result. -/
theorem GetPoWAlgoHash_groestl_skein_qubit (P : HashPrims) (c : AlgoConsts) (h : CBlockHeader)
    (hids : c.IdsDistinct) :
    (headerBytes h).length = 80 ∧
    GetHash P h = P.hash256 (headerBytes h) % 2 ^ 256 ∧
    (GetAlgo c h = c.ALGO_GROESTL →
      GetPoWAlgoHash P c h = P.groestl (headerBytes h) % 2 ^ 256) ∧
    (GetAlgo c h = c.ALGO_SKEIN →
      GetPoWAlgoHash P c h = P.skein (headerBytes h) % 2 ^ 256) ∧
    (GetAlgo c h = c.ALGO_QUBIT →
      GetPoWAlgoHash P c h = P.qubit (headerBytes h) % 2 ^ 256) := by
  obtain ⟨⟨-, h13, h14, h15, -⟩, ⟨h23, h24, h25, -⟩, ⟨h34, h35, -⟩, ⟨h45, -⟩, -⟩ := hids.ne_all
  refine ⟨headerBytes_length h, rfl, ?_, ?_, ?_⟩
  · intro hA
    simp only [GetPoWAlgoHash, hA, if_neg (Ne.symm h13), if_neg (Ne.symm h23), if_true,
      readThash_writeDigest_BEGIN]
  · intro hA
    simp only [GetPoWAlgoHash, hA, if_neg (Ne.symm h14), if_neg (Ne.symm h24),
      if_neg (Ne.symm h34), if_true, readThash_writeDigest_BEGIN]
  · intro hA
    simp only [GetPoWAlgoHash, hA, if_neg (Ne.symm h15), if_neg (Ne.symm h25),
      if_neg (Ne.symm h35), if_neg (Ne.symm h45), if_true, readThash_assignThash, Nat.mod_mod]

theorem GetPoWAlgoHash_groestl_skein_qubit_witness :
    sampleConsts.IdsDistinct ∧
      GetPoWAlgoHash samplePrims sampleConsts ⟨2 * 512 + 2, 7, 9, 1000, 0x1d00ffff, 42⟩ =
        samplePrims.groestl (headerBytes ⟨2 * 512 + 2, 7, 9, 1000, 0x1d00ffff, 42⟩) % 2 ^ 256 ∧
      GetPoWAlgoHash samplePrims sampleConsts ⟨3 * 512 + 2, 7, 9, 1000, 0x1d00ffff, 42⟩ =
        samplePrims.skein (headerBytes ⟨3 * 512 + 2, 7, 9, 1000, 0x1d00ffff, 42⟩) % 2 ^ 256 ∧
      GetPoWAlgoHash samplePrims sampleConsts ⟨4 * 512 + 2, 7, 9, 1000, 0x1d00ffff, 42⟩ =
        samplePrims.qubit (headerBytes ⟨4 * 512 + 2, 7, 9, 1000, 0x1d00ffff, 42⟩) % 2 ^ 256 :=
  ⟨by decide,
    (GetPoWAlgoHash_groestl_skein_qubit samplePrims sampleConsts
      ⟨2 * 512 + 2, 7, 9, 1000, 0x1d00ffff, 42⟩ (by decide)).2.2.1 (by decide),
    (GetPoWAlgoHash_groestl_skein_qubit samplePrims sampleConsts
      ⟨3 * 512 + 2, 7, 9, 1000, 0x1d00ffff, 42⟩ (by decide)).2.2.2.1 (by decide),
    (GetPoWAlgoHash_groestl_skein_qubit samplePrims sampleConsts
      ⟨4 * 512 + 2, 7, 9, 1000, 0x1d00ffff, 42⟩ (by decide)).2.2.2.2 (by decide)⟩

/-- C6, as stated, fails: two headers that are identical except for the tag bits of the version,
one tagged SHA256D and one tagged Groestl, whose values of `GetHash` under the double SHA-256
differ. -/
theorem GetHash_tag_variants_differ :
    SameExceptTag sampleConsts ⟨512 + 2, 0, 0, 1000, 0x1d00ffff, 42⟩
        ⟨1024 + 2, 0, 0, 1000, 0x1d00ffff, 42⟩ ∧
      GetAlgo sampleConsts ⟨512 + 2, 0, 0, 1000, 0x1d00ffff, 42⟩ = sampleConsts.ALGO_SHA256D ∧
      GetAlgo sampleConsts ⟨1024 + 2, 0, 0, 1000, 0x1d00ffff, 42⟩ = sampleConsts.ALGO_GROESTL ∧
      GetHash sha256dPrims ⟨512 + 2, 0, 0, 1000, 0x1d00ffff, 42⟩ ≠
        GetHash sha256dPrims ⟨1024 + 2, 0, 0, 1000, 0x1d00ffff, 42⟩ := by
  refine ⟨by decide, by decide, by decide, ?_⟩
  set_option maxRecDepth 100000 in decide

/-- C6, amended: for two headers that are identical except for the tag bits of the version, one
tagged SHA256D and one tagged Groestl, `GetHash` is the same construction for both, the double
hash of the 80 header bytes, and never consults the decoded algorithm; the two byte sequences
agree from byte 4 on and differ within the four version bytes, so the two identity hashes differ
unless the double hash collides on these two inputs. -/
theorem GetHash_tag_variants (P : HashPrims) (c : AlgoConsts) (h1 h2 : CBlockHeader)
    (htags : c.TagsDistinct) (hsame : SameExceptTag c h1 h2)
    (ht1 : algoTag c h1.nVersion = c.BLOCK_VERSION_SHA256D)
    (ht2 : algoTag c h2.nVersion = c.BLOCK_VERSION_GROESTL) :
    GetHash P h1 = P.hash256 (headerBytes h1) % 2 ^ 256 ∧
    GetHash P h2 = P.hash256 (headerBytes h2) % 2 ^ 256 ∧
    (headerBytes h1).drop 4 = (headerBytes h2).drop 4 ∧
    headerBytes h1 ≠ headerBytes h2 ∧
    ((P.hash256 (headerBytes h1) % 2 ^ 256 = P.hash256 (headerBytes h2) % 2 ^ 256 →
        headerBytes h1 = headerBytes h2) → GetHash P h1 ≠ GetHash P h2) := by
  have hne : headerBytes h1 ≠ headerBytes h2 := by
    intro hb
    have hv := toBits32_eq_of_headerBytes_eq h1 h2 hb
    have ht : algoTag c h1.nVersion = algoTag c h2.nVersion := by
      simp only [algoTag, bitand, hv]
    rw [ht1, ht2] at ht
    simp only [AlgoConsts.TagsDistinct, List.nodup_cons, List.mem_cons, List.mem_singleton,
      not_or, List.not_mem_nil, not_false_eq_true, List.nodup_nil, and_true] at htags
    exact htags.2.1.1 ht
  obtain ⟨-, hp, hm, htm, hbt, hn⟩ := hsame
  refine ⟨rfl, rfl, ?_, hne, fun hinj heq => hne (hinj heq)⟩
  simp only [headerBytes, List.append_assoc]
  rw [List.drop_append_of_le_length (by simp [leBytes_length]),
    List.drop_append_of_le_length (by simp [leBytes_length]),
    List.drop_of_length_le (by simp [leBytes_length]),
    List.drop_of_length_le (by simp [leBytes_length]), hp, hm, htm, hbt, hn]

theorem GetHash_tag_variants_witness :
    GetHash samplePrims ⟨512 + 2, 0, 0, 1000, 0x1d00ffff, 42⟩ =
        samplePrims.hash256 (headerBytes ⟨512 + 2, 0, 0, 1000, 0x1d00ffff, 42⟩) % 2 ^ 256 ∧
      headerBytes ⟨512 + 2, 0, 0, 1000, 0x1d00ffff, 42⟩ ≠
        headerBytes ⟨1024 + 2, 0, 0, 1000, 0x1d00ffff, 42⟩ :=
  have w := GetHash_tag_variants samplePrims sampleConsts ⟨512 + 2, 0, 0, 1000, 0x1d00ffff, 42⟩
    ⟨1024 + 2, 0, 0, 1000, 0x1d00ffff, 42⟩ (by decide) (by decide) (by decide) (by decide)
  ⟨w.1, w.2.2.2.1⟩

/-- C7: with `WITNESS_SCALE_FACTOR = 4` and `strippedSize ≤ totalSize`, `GetBlockWeight`
equals `strippedSize * 3 + totalSize` and also `strippedSize * 4 + (totalSize - strippedSize)`,
as exact integers. The sizes are byte counts of a block held in memory (`totalSize < 2 ^ 61`), so
the 64-bit arithmetic of the code does not wrap. -/
theorem GetBlockWeight_eq {CBlock : Type} (GetSerializeSize : CBlock → Bool → Nat)
    (WITNESS_SCALE_FACTOR : Int) (block : CBlock) (hw : WITNESS_SCALE_FACTOR = 4)
    (hle : GetSerializeSize block true ≤ GetSerializeSize block false)
    (hfit : GetSerializeSize block false < 2 ^ 61) :
    GetBlockWeight GetSerializeSize WITNESS_SCALE_FACTOR block =
        (GetSerializeSize block true : Int) * 3 + (GetSerializeSize block false : Int) ∧
      GetBlockWeight GetSerializeSize WITNESS_SCALE_FACTOR block =
        (GetSerializeSize block true : Int) * 4 +
          ((GetSerializeSize block false : Int) - (GetSerializeSize block true : Int)) := by
  subst hw
  have h3 : toSizeT (4 - 1) = 3 := by decide
  have hs : GetSerializeSize block true % 2 ^ 64 = GetSerializeSize block true :=
    Nat.mod_eq_of_lt (by omega)
  have ht : GetSerializeSize block false % 2 ^ 64 = GetSerializeSize block false :=
    Nat.mod_eq_of_lt (by omega)
  have hsum : (GetSerializeSize block true * 3 + GetSerializeSize block false) % 2 ^ 64 =
      GetSerializeSize block true * 3 + GetSerializeSize block false :=
    Nat.mod_eq_of_lt (by omega)
  have hlt : GetSerializeSize block true * 3 + GetSerializeSize block false < 2 ^ 63 := by
    omega
  have hval : GetBlockWeight GetSerializeSize 4 block =
      (GetSerializeSize block true : Int) * 3 + (GetSerializeSize block false : Int) := by
    simp only [GetBlockWeight, h3, hs, ht, hsum, toInt64, if_pos hlt]
    push_cast
    rfl
  refine ⟨hval, ?_⟩
  rw [hval]
  ring

theorem GetBlockWeight_eq_witness :
    GetBlockWeight sampleSerializeSize 4 ⟨[(200, 100), (150, 0)]⟩ = 431 * 3 + 533 ∧
      GetBlockWeight sampleSerializeSize 4 ⟨[(200, 100), (150, 0)]⟩ = 431 * 4 + (533 - 431) :=
  GetBlockWeight_eq sampleSerializeSize 4 ⟨[(200, 100), (150, 0)]⟩ rfl (by decide) (by decide)

/-- C8: `GetAlgoByName` is case-insensitive and alias-complete: a string that after ASCII
lower-casing is one of sha / sha256 / sha256d, scrypt, groestl / groestlsha2, skein / skeinsha2,
q2c / qubit gives `ALGO_SHA256D`, `ALGO_SCRYPT`, `ALGO_GROESTL`, `ALGO_SKEIN`, `ALGO_QUBIT`
respectively, for every fallback; and any two strings with the same lower-cased accepted form get
the same identifier whatever the two fallbacks are. -/
theorem GetAlgoByName_aliases (c : AlgoConsts) (s : String) (X : Int) :
    (transformToLower s ∈ ["sha", "sha256", "sha256d"] →
      GetAlgoByName c s X = c.ALGO_SHA256D) ∧
    (transformToLower s = "scrypt" → GetAlgoByName c s X = c.ALGO_SCRYPT) ∧
    (transformToLower s ∈ ["groestl", "groestlsha2"] → GetAlgoByName c s X = c.ALGO_GROESTL) ∧
    (transformToLower s ∈ ["skein", "skeinsha2"] → GetAlgoByName c s X = c.ALGO_SKEIN) ∧
    (transformToLower s ∈ ["q2c", "qubit"] → GetAlgoByName c s X = c.ALGO_QUBIT) ∧
    (∀ (t : String) (Y : Int), transformToLower t = transformToLower s →
      transformToLower s ∈ acceptedAliases → GetAlgoByName c t Y = GetAlgoByName c s X) := by
  refine ⟨?_, ?_, ?_, ?_, ?_, ?_⟩
  · intro hm
    simp only [List.mem_cons, List.mem_singleton, List.not_mem_nil, or_false] at hm
    simp only [GetAlgoByName, if_pos hm]
  · intro hm
    simp [GetAlgoByName, hm]
  · intro hm
    simp only [List.mem_cons, List.mem_singleton, List.not_mem_nil, or_false] at hm
    rcases hm with hm | hm <;> simp [GetAlgoByName, hm]
  · intro hm
    simp only [List.mem_cons, List.mem_singleton, List.not_mem_nil, or_false] at hm
    rcases hm with hm | hm <;> simp [GetAlgoByName, hm]
  · intro hm
    simp only [List.mem_cons, List.mem_singleton, List.not_mem_nil, or_false] at hm
    rcases hm with hm | hm <;> simp [GetAlgoByName, hm]
  · intro t Y ht hm
    simp only [acceptedAliases, List.mem_cons, List.mem_singleton, List.not_mem_nil,
      or_false] at hm
    rcases hm with hm | hm | hm | hm | hm | hm | hm | hm | hm | hm <;>
      simp [GetAlgoByName, ht, hm]

theorem GetAlgoByName_aliases_witness :
    GetAlgoByName sampleConsts "SHA256D" 3 = sampleConsts.ALGO_SHA256D ∧
      GetAlgoByName sampleConsts "sha" (-1) = sampleConsts.ALGO_SHA256D ∧
      GetAlgoByName sampleConsts "ScRyPt" 3 = sampleConsts.ALGO_SCRYPT ∧
      GetAlgoByName sampleConsts "GroestlSHA2" 3 = sampleConsts.ALGO_GROESTL ∧
      GetAlgoByName sampleConsts "SKEIN" 3 = sampleConsts.ALGO_SKEIN ∧
      GetAlgoByName sampleConsts "Q2C" 3 = sampleConsts.ALGO_QUBIT :=
  ⟨(GetAlgoByName_aliases sampleConsts "SHA256D" 3).1 (by decide),
    (GetAlgoByName_aliases sampleConsts "sha" (-1)).1 (by decide),
    (GetAlgoByName_aliases sampleConsts "ScRyPt" 3).2.1 (by decide),
    (GetAlgoByName_aliases sampleConsts "GroestlSHA2" 3).2.2.1 (by decide),
    (GetAlgoByName_aliases sampleConsts "SKEIN" 3).2.2.2.1 (by decide),
    (GetAlgoByName_aliases sampleConsts "Q2C" 3).2.2.2.2.1 (by decide)⟩

/-- C9: for every string whose ASCII lower-cased form is not one of the ten accepted aliases and
every integer fallback `X`, `GetAlgoByName` returns exactly `X`. The function is total, so it
never fails. -/
theorem GetAlgoByName_fallback (c : AlgoConsts) (s : String) (X : Int)
    (hs : transformToLower s ∉ acceptedAliases) : GetAlgoByName c s X = X := by
  simp only [acceptedAliases, List.mem_cons, List.mem_singleton, List.not_mem_nil, or_false,
    not_or] at hs
  obtain ⟨h1, h2, h3, h4, h5, h6, h7, h8, h9, h10⟩ := hs
  simp [GetAlgoByName, h1, h2, h3, h4, h5, h6, h7, h8, h9, h10]

theorem GetAlgoByName_fallback_witness :
    GetAlgoByName sampleConsts "" 2 = 2 ∧
      GetAlgoByName sampleConsts "notanalgo" (-1) = -1 ∧
      GetAlgoByName sampleConsts "unknown" 77 = 77 ∧
      GetAlgoByName sampleConsts " sha" 0 = 0 ∧
      GetAlgoByName sampleConsts "qubitx" (-5) = -5 :=
  ⟨GetAlgoByName_fallback sampleConsts "" 2 (by decide),
    GetAlgoByName_fallback sampleConsts "notanalgo" (-1) (by decide),
    GetAlgoByName_fallback sampleConsts "unknown" 77 (by decide),
    GetAlgoByName_fallback sampleConsts " sha" 0 (by decide),
    GetAlgoByName_fallback sampleConsts "qubitx" (-5) (by decide)⟩

/-- C10: `GetAlgoName` is total over the integers: it returns "sha256d", "scrypt", "groestl",
"skein", "qubit" for `ALGO_SHA256D`, `ALGO_SCRYPT`, `ALGO_GROESTL`, `ALGO_SKEIN`, `ALGO_QUBIT`
and "unknown" for every other integer, `ALGO_UNKNOWN` included; hence for every header
`GetAlgoName (GetAlgo header)` is "unknown" exactly when the tag of the header is not one of the
five recognised patterns. -/
theorem GetAlgoName_table (c : AlgoConsts) (hids : c.IdsDistinct) :
    GetAlgoName c c.ALGO_SHA256D = "sha256d" ∧
    GetAlgoName c c.ALGO_SCRYPT = "scrypt" ∧
    GetAlgoName c c.ALGO_GROESTL = "groestl" ∧
    GetAlgoName c c.ALGO_SKEIN = "skein" ∧
    GetAlgoName c c.ALGO_QUBIT = "qubit" ∧
    (∀ a : Int, a ∉ [c.ALGO_SHA256D, c.ALGO_SCRYPT, c.ALGO_GROESTL, c.ALGO_SKEIN,
      c.ALGO_QUBIT] → GetAlgoName c a = "unknown") ∧
    GetAlgoName c c.ALGO_UNKNOWN = "unknown" ∧
    (∀ h : CBlockHeader,
      GetAlgoName c (GetAlgo c h) = "unknown" ↔ ¬ TagRecognised c h.nVersion) := by
  obtain ⟨⟨h12, h13, h14, h15, h16⟩, ⟨h23, h24, h25, h26⟩, ⟨h34, h35, h36⟩, ⟨h45, h46⟩, h56⟩ :=
    hids.ne_all
  have hother : ∀ a : Int, a ∉ [c.ALGO_SHA256D, c.ALGO_SCRYPT, c.ALGO_GROESTL, c.ALGO_SKEIN,
      c.ALGO_QUBIT] → GetAlgoName c a = "unknown" := by
    intro a ha
    simp only [List.mem_cons, List.mem_singleton, List.not_mem_nil, or_false, not_or] at ha
    obtain ⟨a1, a2, a3, a4, a5⟩ := ha
    simp [GetAlgoName, a1, a2, a3, a4, a5]
  have hunk : GetAlgoName c c.ALGO_UNKNOWN = "unknown" := by
    apply hother
    simp only [List.mem_cons, List.mem_singleton, List.not_mem_nil, or_false, not_or]
    exact ⟨Ne.symm h16, Ne.symm h26, Ne.symm h36, Ne.symm h46, Ne.symm h56⟩
  have n1 : GetAlgoName c c.ALGO_SHA256D = "sha256d" := by simp [GetAlgoName]
  have n2 : GetAlgoName c c.ALGO_SCRYPT = "scrypt" := by simp [GetAlgoName, Ne.symm h12]
  have n3 : GetAlgoName c c.ALGO_GROESTL = "groestl" := by
    simp [GetAlgoName, Ne.symm h13, Ne.symm h23]
  have n4 : GetAlgoName c c.ALGO_SKEIN = "skein" := by
    simp [GetAlgoName, Ne.symm h14, Ne.symm h24, Ne.symm h34]
  have n5 : GetAlgoName c c.ALGO_QUBIT = "qubit" := by
    simp [GetAlgoName, Ne.symm h15, Ne.symm h25, Ne.symm h35, Ne.symm h45]
  refine ⟨n1, n2, n3, n4, n5, hother, hunk, ?_⟩
  intro h
  constructor
  · intro hname hrec
    simp only [TagRecognised, algoTag] at hrec
    by_cases t1 : bitand h.nVersion c.BLOCK_VERSION_ALGO = c.BLOCK_VERSION_SCRYPT
    · rw [show GetAlgo c h = c.ALGO_SCRYPT by
        simp only [GetAlgo, if_pos t1], n2] at hname
      exact absurd hname (by decide)
    by_cases t2 : bitand h.nVersion c.BLOCK_VERSION_ALGO = c.BLOCK_VERSION_SHA256D
    · rw [show GetAlgo c h = c.ALGO_SHA256D by
        simp only [GetAlgo, if_neg t1, if_pos t2], n1] at hname
      exact absurd hname (by decide)
    by_cases t3 : bitand h.nVersion c.BLOCK_VERSION_ALGO = c.BLOCK_VERSION_GROESTL
    · rw [show GetAlgo c h = c.ALGO_GROESTL by
        simp only [GetAlgo, if_neg t1, if_neg t2, if_pos t3], n3] at hname
      exact absurd hname (by decide)
    by_cases t4 : bitand h.nVersion c.BLOCK_VERSION_ALGO = c.BLOCK_VERSION_SKEIN
    · rw [show GetAlgo c h = c.ALGO_SKEIN by
        simp only [GetAlgo, if_neg t1, if_neg t2, if_neg t3, if_pos t4], n4] at hname
      exact absurd hname (by decide)
    by_cases t5 : bitand h.nVersion c.BLOCK_VERSION_ALGO = c.BLOCK_VERSION_QUBIT
    · rw [show GetAlgo c h = c.ALGO_QUBIT by
        simp only [GetAlgo, if_neg t1, if_neg t2, if_neg t3, if_neg t4, if_pos t5], n5] at hname
      exact absurd hname (by decide)
    rcases hrec with r | r | r | r | r
    · exact t1 r
    · exact t2 r
    · exact t3 r
    · exact t4 r
    · exact t5 r
  · intro hu
    rw [GetAlgo_of_unrecognised c h hu, hunk]

theorem GetAlgoName_table_witness :
    sampleConsts.IdsDistinct ∧
      GetAlgoName sampleConsts 3 = "skein" ∧
      GetAlgoName sampleConsts (-7) = "unknown" ∧
      GetAlgoName sampleConsts 5 = "unknown" ∧
      GetAlgoName sampleConsts (GetAlgo sampleConsts ⟨6 * 512 + 2, 7, 9, 1000, 0x1d00ffff, 42⟩)
        = "unknown" :=
  ⟨by decide,
    (GetAlgoName_table sampleConsts (by decide)).2.2.2.1,
    (GetAlgoName_table sampleConsts (by decide)).2.2.2.2.2.1 (-7) (by decide),
    (GetAlgoName_table sampleConsts (by decide)).2.2.2.2.2.1 5 (by decide),
    ((GetAlgoName_table sampleConsts (by decide)).2.2.2.2.2.2.2
      ⟨6 * 512 + 2, 7, 9, 1000, 0x1d00ffff, 42⟩).2 (by decide)⟩

/-- C11: two headers that differ solely in the nonce have different identity hashes: the nonce
is part of the hashed bytes, so the two byte sequences differ, and with the double hash free of a
collision on these two inputs `GetHash` differs; identical headers give the identical hash. -/
theorem GetHash_nonce (P : HashPrims) (h : CBlockHeader) (n : Nat) (hn1 : h.nNonce < 2 ^ 32)
    (hn2 : n < 2 ^ 32) (hne : n ≠ h.nNonce)
    (hfree : P.hash256 (headerBytes h) % 2 ^ 256 =
        P.hash256 (headerBytes { h with nNonce := n }) % 2 ^ 256 →
      headerBytes h = headerBytes { h with nNonce := n }) :
    headerBytes h ≠ headerBytes { h with nNonce := n } ∧
      GetHash P h ≠ GetHash P { h with nNonce := n } ∧
      (∀ h2 : CBlockHeader, h2 = h → GetHash P h2 = GetHash P h) := by
  have hb : headerBytes h ≠ headerBytes { h with nNonce := n } := by
    intro heq
    exact hne (nNonce_eq_of_headerBytes_eq h { h with nNonce := n } hn1 hn2 heq).symm
  exact ⟨hb, fun heq => hb (hfree heq), fun h2 e => by rw [e]⟩

theorem GetHash_nonce_witness :
    headerBytes ⟨2, 7, 9, 1000, 0x1d00ffff, 42⟩ ≠ headerBytes ⟨2, 7, 9, 1000, 0x1d00ffff, 43⟩ ∧
      GetHash sha256dPrims ⟨2, 7, 9, 1000, 0x1d00ffff, 42⟩ ≠
        GetHash sha256dPrims ⟨2, 7, 9, 1000, 0x1d00ffff, 43⟩ :=
  have w := GetHash_nonce sha256dPrims ⟨2, 7, 9, 1000, 0x1d00ffff, 42⟩ 43 (by decide) (by decide)
    (by decide) (fun heq => absurd heq (by set_option maxRecDepth 100000 in decide))
  ⟨w.1, w.2.1⟩

/-- C12: fail-closed sentinel: for a header with an unrecognised tag the proof-of-work hash,
read as an unsigned 256-bit integer, is at least every 256-bit target `t`, and for every target
below `2 ^ 256 - 1` the acceptance test `powHash ≤ t` is false. -/
theorem GetPoWAlgoHash_unknown_fails_target (P : HashPrims) (c : AlgoConsts) (h : CBlockHeader)
    (hids : c.IdsDistinct) (hu : ¬ TagRecognised c h.nVersion) (t : Nat) (ht : t < 2 ^ 256) :
    t ≤ GetPoWAlgoHash P c h ∧ (t < 2 ^ 256 - 1 → ¬ GetPoWAlgoHash P c h ≤ t) := by
  rw [GetPoWAlgoHash_of_unrecognised P c h hids hu, UINT256_MAX]
  omega

theorem GetPoWAlgoHash_unknown_fails_target_witness :
    0x00000000ffff0000000000000000000000000000000000000000000000000000 ≤
        GetPoWAlgoHash samplePrims sampleConsts ⟨7 * 512 + 2, 7, 9, 1000, 0x1d00ffff, 42⟩ ∧
      ¬ GetPoWAlgoHash samplePrims sampleConsts ⟨7 * 512 + 2, 7, 9, 1000, 0x1d00ffff, 42⟩ ≤
        0x00000000ffff0000000000000000000000000000000000000000000000000000 :=
  have w := GetPoWAlgoHash_unknown_fails_target samplePrims sampleConsts
    ⟨7 * 512 + 2, 7, 9, 1000, 0x1d00ffff, 42⟩ (by decide) (by decide)
    0x00000000ffff0000000000000000000000000000000000000000000000000000 (by decide)
  ⟨w.1, w.2 (by decide)⟩

/-- C13: the dispatch is exhaustive, `GetAlgo` returns one of the six identifiers, but on the
Scrypt path the value returned is the untouched `thash`: for a Scrypt-tagged header the first 32
bytes of the storage after the call of the primitive are those of the default construction, and
`GetPoWAlgoHash` returns their value, zero, whatever the primitives are. -/
theorem GetPoWAlgoHash_scrypt_returns_untouched_thash :
    (∀ (c : AlgoConsts) (h : CBlockHeader),
      GetAlgo c h ∈ [c.ALGO_UNKNOWN, c.ALGO_SHA256D, c.ALGO_SCRYPT, c.ALGO_GROESTL,
        c.ALGO_SKEIN, c.ALGO_QUBIT]) ∧
    GetAlgo sampleConsts ⟨2, 7, 9, 1000, 0x1d00ffff, 42⟩ = sampleConsts.ALGO_SCRYPT ∧
    (∀ P : HashPrims,
      (writeDigest initialStorage END_thash
        (P.scrypt_1024_1_1_256 (headerBytes ⟨2, 7, 9, 1000, 0x1d00ffff, 42⟩))).take 32 =
        initialStorage.take 32) ∧
    (∀ P : HashPrims,
      GetPoWAlgoHash P sampleConsts ⟨2, 7, 9, 1000, 0x1d00ffff, 42⟩ = readThash initialStorage) ∧
    readThash initialStorage = 0 := by
  have h0 : readThash initialStorage = 0 := by decide
  refine ⟨GetAlgo_mem_ids, by decide, ?_, ?_, h0⟩
  · intro P
    have h32 : (List.take END_thash initialStorage).length = 32 := by
      simp [initialStorage, END_thash, leBytes_length]
    unfold writeDigest
    rw [List.append_assoc, List.take_append_of_le_length (by omega),
      List.take_of_length_le (by omega)]
    rfl
  · intro P
    rw [h0]
    exact GetPoWAlgoHash_of_scrypt P sampleConsts _ (by decide) (by decide)

/-- C14: name round trip: for each of the five recognised identifiers `a` and every fallback `X`,
`GetAlgoByName (GetAlgoName a) X = a`; the five canonical names are pairwise distinct; and for
every identifier outside the five, `GetAlgoByName (GetAlgoName id) X = X`, "unknown" not being an
accepted alias. -/
theorem GetAlgoByName_GetAlgoName (c : AlgoConsts) (hids : c.IdsDistinct) (X : Int) :
    GetAlgoByName c (GetAlgoName c c.ALGO_SHA256D) X = c.ALGO_SHA256D ∧
    GetAlgoByName c (GetAlgoName c c.ALGO_SCRYPT) X = c.ALGO_SCRYPT ∧
    GetAlgoByName c (GetAlgoName c c.ALGO_GROESTL) X = c.ALGO_GROESTL ∧
    GetAlgoByName c (GetAlgoName c c.ALGO_SKEIN) X = c.ALGO_SKEIN ∧
    GetAlgoByName c (GetAlgoName c c.ALGO_QUBIT) X = c.ALGO_QUBIT ∧
    ([c.ALGO_SHA256D, c.ALGO_SCRYPT, c.ALGO_GROESTL, c.ALGO_SKEIN, c.ALGO_QUBIT].map
      (GetAlgoName c)).Nodup ∧
    (∀ id : Int, id ∉ [c.ALGO_SHA256D, c.ALGO_SCRYPT, c.ALGO_GROESTL, c.ALGO_SKEIN,
      c.ALGO_QUBIT] → GetAlgoByName c (GetAlgoName c id) X = X) := by
  obtain ⟨n1, n2, n3, n4, n5⟩ := GetAlgoName_of_ids c hids
  have l1 : transformToLower "sha256d" = "sha256d" := by decide
  have l2 : transformToLower "scrypt" = "scrypt" := by decide
  have l3 : transformToLower "groestl" = "groestl" := by decide
  have l4 : transformToLower "skein" = "skein" := by decide
  have l5 : transformToLower "qubit" = "qubit" := by decide
  have l6 : transformToLower "unknown" = "unknown" := by decide
  refine ⟨?_, ?_, ?_, ?_, ?_, ?_, ?_⟩
  · rw [n1]; simp [GetAlgoByName, l1]
  · rw [n2]; simp [GetAlgoByName, l2]
  · rw [n3]; simp [GetAlgoByName, l3]
  · rw [n4]; simp [GetAlgoByName, l4]
  · rw [n5]; simp [GetAlgoByName, l5]
  · simp only [List.map, n1, n2, n3, n4, n5]
    decide
  · intro id hid
    rw [GetAlgoName_of_other c id hid]
    simp [GetAlgoByName, l6]

theorem GetAlgoByName_GetAlgoName_witness :
    sampleConsts.IdsDistinct ∧
      GetAlgoByName sampleConsts (GetAlgoName sampleConsts 3) (-1) = 3 ∧
      GetAlgoByName sampleConsts (GetAlgoName sampleConsts 9) 77 = 77 ∧
      GetAlgoByName sampleConsts (GetAlgoName sampleConsts (-1)) 2 = 2 :=
  ⟨by decide,
    (GetAlgoByName_GetAlgoName sampleConsts (by decide) (-1)).2.2.2.1,
    (GetAlgoByName_GetAlgoName sampleConsts (by decide) 77).2.2.2.2.2.2 9 (by decide),
    (GetAlgoByName_GetAlgoName sampleConsts (by decide) 2).2.2.2.2.2.2 (-1) (by decide)⟩

/-- C15: weight bounds: with `WITNESS_SCALE_FACTOR = 4` and `0 ≤ strippedSize ≤ totalSize`
(sizes of a block held in memory, `totalSize < 2 ^ 61`), `totalSize ≤ GetBlockWeight ≤
4 * totalSize`, the upper bound is attained exactly when `strippedSize = totalSize`, and the
weight does not decrease when `strippedSize` or `totalSize` grows. -/
theorem GetBlockWeight_bounds {CBlock : Type} (GetSerializeSize : CBlock → Bool → Nat)
    (WITNESS_SCALE_FACTOR : Int) (hw : WITNESS_SCALE_FACTOR = 4) :
    (∀ block : CBlock, GetSerializeSize block true ≤ GetSerializeSize block false →
      GetSerializeSize block false < 2 ^ 61 →
      (GetSerializeSize block false : Int) ≤
          GetBlockWeight GetSerializeSize WITNESS_SCALE_FACTOR block ∧
        GetBlockWeight GetSerializeSize WITNESS_SCALE_FACTOR block ≤
          4 * (GetSerializeSize block false : Int) ∧
        (GetBlockWeight GetSerializeSize WITNESS_SCALE_FACTOR block =
            4 * (GetSerializeSize block false : Int) ↔
          GetSerializeSize block true = GetSerializeSize block false)) ∧
    (∀ b1 b2 : CBlock, GetSerializeSize b1 true ≤ GetSerializeSize b1 false →
      GetSerializeSize b1 false < 2 ^ 61 →
      GetSerializeSize b2 true ≤ GetSerializeSize b2 false →
      GetSerializeSize b2 false < 2 ^ 61 →
      GetSerializeSize b1 true ≤ GetSerializeSize b2 true →
      GetSerializeSize b1 false ≤ GetSerializeSize b2 false →
      GetBlockWeight GetSerializeSize WITNESS_SCALE_FACTOR b1 ≤
        GetBlockWeight GetSerializeSize WITNESS_SCALE_FACTOR b2) := by
  subst hw
  constructor
  · intro block hle hfit
    rw [GetBlockWeight_val GetSerializeSize block hle hfit]
    refine ⟨by omega, by omega, ?_⟩
    constructor <;> intro h <;> omega
  · intro b1 b2 hle1 hfit1 hle2 hfit2 hs ht
    rw [GetBlockWeight_val GetSerializeSize b1 hle1 hfit1,
      GetBlockWeight_val GetSerializeSize b2 hle2 hfit2]
    omega

theorem GetBlockWeight_bounds_witness :
    (533 : Int) ≤ GetBlockWeight sampleSerializeSize 4 ⟨[(200, 100), (150, 0)]⟩ ∧
      GetBlockWeight sampleSerializeSize 4 ⟨[(200, 100), (150, 0)]⟩ ≤ 4 * 533 ∧
      GetBlockWeight sampleSerializeSize 4 ⟨[(200, 0), (150, 0)]⟩ = 4 * 431 ∧
      GetBlockWeight sampleSerializeSize 4 ⟨[(200, 0), (150, 0)]⟩ ≤
        GetBlockWeight sampleSerializeSize 4 ⟨[(200, 100), (150, 0)]⟩ :=
  have w := GetBlockWeight_bounds sampleSerializeSize 4 rfl
  have a := w.1 ⟨[(200, 100), (150, 0)]⟩ (by decide) (by decide)
  have b := w.1 ⟨[(200, 0), (150, 0)]⟩ (by decide) (by decide)
  ⟨a.1, a.2.1, b.2.2.2 (by decide),
    w.2 ⟨[(200, 0), (150, 0)]⟩ ⟨[(200, 100), (150, 0)]⟩ (by decide) (by decide) (by decide)
      (by decide) (by decide) (by decide)⟩

end Auroracoin
